import Mathlib

/-!
Verification of the Braille layout engine of the Blender Braille scripts.

The layout algorithm lives in `src/braille_text.py` (`generate_braille_text`)
and, in near-duplicate form, in `src/blender/braille_text.py`; the two copies
share the character map, the capitalization logic, the cursor arithmetic and
the plate-geometry formulas, so one embedding covers both.

The embedding below is a direct shallow translation of the Python code:

* the `braille_map` dictionary becomes the association list `braille_table`
  (the `CAPS` key, which the per-character lookup can never hit, is the
  separate constant `capsPattern`);
* `str.split` (on a single separator, keeping empty pieces) becomes
  `splitOnChar`;
* `str.isupper` (at least one cased character and no lowercase one) becomes
  `pyIsUpper`; the repository's inputs are ASCII, for which `Char.isUpper`,
  `Char.isLower` and `Char.toLower` agree with Python's semantics;
* floating-point spacing values become exact rationals (`ℚ`) - the Python
  code performs only `+ - * /` on them, the same field operations on `ℚ`;
* the body of the word loop becomes `processWord`; every point of the source
  where the per-line cell counter `cells_this_line` is incremented appends
  one record to the `emitted` trace, so the counter of the source is
  `st.emitted.length`; the trace additionally records which pattern the
  counted cell carries (a blank for the empty-word cell and the inter-word
  gap cell, which the source counts without generating any dots) and the
  cell's `(x, y)` origin at the moment it is counted;
* `_generate_cell` becomes `generate_cell`; the scene mutation
  (`create_braille_dot`) becomes an appended `DotPlacement` record;
* the early `return` taken when `max_cells_in_line == 0` (printing
  "No text to generate. Aborting base creation.") becomes the `none` result;
  the plate construction becomes the `some` result holding the computed
  geometry.
-/

namespace Braille

/-- A Braille cell pattern exactly as the source stores it: a list of six
0/1 integers, one per dot position. -/
abbrev Pattern := List Nat

/-- The single-character entries of the source's `braille_map` dictionary,
in the source's order. -/
def braille_table : List (Char × Pattern) :=
  [ ('a', [1, 0, 0, 0, 0, 0]), ('b', [1, 1, 0, 0, 0, 0]), ('c', [1, 0, 0, 1, 0, 0]),
    ('d', [1, 0, 0, 1, 1, 0]), ('e', [1, 0, 0, 0, 1, 0]), ('f', [1, 1, 0, 1, 0, 0]),
    ('g', [1, 1, 0, 1, 1, 0]), ('h', [1, 1, 0, 0, 1, 0]), ('i', [0, 1, 0, 1, 0, 0]),
    ('j', [0, 1, 0, 1, 1, 0]), ('k', [1, 0, 1, 0, 0, 0]), ('l', [1, 1, 1, 0, 0, 0]),
    ('m', [1, 0, 1, 1, 0, 0]), ('n', [1, 0, 1, 1, 1, 0]), ('o', [1, 0, 1, 0, 1, 0]),
    ('p', [1, 1, 1, 1, 0, 0]), ('q', [1, 1, 1, 1, 1, 0]), ('r', [1, 1, 1, 0, 1, 0]),
    ('s', [0, 1, 1, 1, 0, 0]), ('t', [0, 1, 1, 1, 1, 0]), ('u', [1, 0, 1, 0, 0, 1]),
    ('v', [1, 1, 1, 0, 0, 1]), ('w', [0, 1, 0, 1, 1, 1]), ('x', [1, 0, 1, 1, 0, 1]),
    ('y', [1, 0, 1, 1, 1, 1]), ('z', [1, 0, 1, 0, 1, 1]),
    ('1', [1, 0, 0, 0, 0, 0]), ('2', [1, 1, 0, 0, 0, 0]), ('3', [1, 0, 0, 1, 0, 0]),
    ('4', [1, 0, 0, 1, 1, 0]), ('5', [1, 0, 0, 0, 1, 0]), ('6', [1, 1, 0, 1, 0, 0]),
    ('7', [1, 1, 0, 1, 1, 0]), ('8', [1, 1, 0, 0, 1, 0]), ('9', [0, 1, 0, 1, 0, 0]),
    ('0', [0, 1, 0, 1, 1, 0]) ]

/-- The `CAPS` entry of `braille_map`: dot 6 marks a capital letter. -/
def capsPattern : Pattern := [0, 0, 0, 0, 0, 1]

/-- The all-zero fallback pattern `[0, 0, 0, 0, 0, 0]` used for characters
the map does not know. -/
def blankPattern : Pattern := [0, 0, 0, 0, 0, 0]

/-- Dictionary lookup in `braille_map` for a single character key. -/
def braille_map (c : Char) : Option Pattern :=
  (braille_table.find? (fun e => e.1 == c)).map (fun e => e.2)

/-- `braille_map.get(char, [0, 0, 0, 0, 0, 0])`: the source's lookup with the
blank fallback, applied to an already-lowercased character. -/
def lookup_pattern (c : Char) : Pattern :=
  (braille_map c).getD blankPattern

/-- The spec's `encode_character`: case-insensitive lookup (the input is
lowercased before the dictionary lookup), blank fallback. -/
def encode_character (c : Char) : Pattern :=
  lookup_pattern c.toLower

/-- The characters the map supports (its keys). -/
def supportedChars : List Char := braille_table.map Prod.fst

/-- The keyword arguments of `generate_braille_text`, as exact rationals. -/
structure LayoutConfig where
  dot_radius : ℚ
  dot_height : ℚ
  dot_spacing_x : ℚ
  dot_spacing_y : ℚ
  cell_spacing_x : ℚ
  line_spacing_y : ℚ
  base_height : ℚ
  padding_x : ℚ
  padding_y : ℚ
  deriving DecidableEq

/-- The default keyword-argument values of `generate_braille_text` in
`src/braille_text.py`. -/
def defaultConfig : LayoutConfig :=
  { dot_radius := 1 / 2, dot_height := 1 / 2,
    dot_spacing_x := 5 / 2, dot_spacing_y := 5 / 2,
    cell_spacing_x := 31 / 5, line_spacing_y := 10,
    base_height := 3, padding_x := 2, padding_y := 2 }

/-- `dot_relative_positions`: the fixed 2x3 grid of six per-cell dot offsets. -/
def dot_relative_positions (cfg : LayoutConfig) : List (ℚ × ℚ) :=
  [ (0, 2 * cfg.dot_spacing_y), (0, cfg.dot_spacing_y), (0, 0),
    (cfg.dot_spacing_x, 2 * cfg.dot_spacing_y),
    (cfg.dot_spacing_x, cfg.dot_spacing_y), (cfg.dot_spacing_x, 0) ]

/-- One produced dot: the arguments the source passes to
`create_braille_dot` (location, radius, height). -/
structure DotPlacement where
  x : ℚ
  y : ℚ
  z : ℚ
  radius : ℚ
  height : ℚ
  deriving DecidableEq

/-- `_generate_cell(pattern, x, y)` (`add_cell` in the blender variant):
one `DotPlacement` per active bit of the pattern. -/
def generate_cell (cfg : LayoutConfig) (pattern : Pattern) (x y : ℚ) :
    List DotPlacement :=
  (List.range 6).filterMap (fun i =>
    if pattern.getD i 0 == 1 then
      some { x := x + ((dot_relative_positions cfg).getD i (0, 0)).1,
             y := y + ((dot_relative_positions cfg).getD i (0, 0)).2,
             z := cfg.base_height / 2,
             radius := cfg.dot_radius,
             height := cfg.dot_height }
    else none)

/-- One counted cell of a line: the pattern it carries and the cell origin
`(x, y)` at the moment the source increments `cells_this_line`. -/
structure EmittedCell where
  pat : Pattern
  x : ℚ
  y : ℚ
  deriving DecidableEq

/-- The per-line loop state: the cursor `current_x`, the trace of counted
cells (its length is the source's `cells_this_line` counter), and the dots
generated so far. -/
structure LineState where
  current_x : ℚ
  emitted : List EmittedCell
  dots : List DotPlacement
  deriving DecidableEq

/-- Emit one pattern cell: `_generate_cell(pattern, current_x, current_y)`
followed by `current_x += cell_spacing_x` and `cells_this_line += 1`. -/
def emitCell (cfg : LayoutConfig) (cy : ℚ) (p : Pattern) (st : LineState) :
    LineState :=
  { current_x := st.current_x + cfg.cell_spacing_x,
    emitted := st.emitted ++ [⟨p, st.current_x, cy⟩],
    dots := st.dots ++ generate_cell cfg p st.current_x cy }

/-- Count one blank cell without generating dots:
`current_x += cell_spacing_x; cells_this_line += 1` (the empty-word cell and
the inter-word gap cell of the source). -/
def emitBlank (cfg : LayoutConfig) (cy : ℚ) (st : LineState) : LineState :=
  { current_x := st.current_x + cfg.cell_spacing_x,
    emitted := st.emitted ++ [⟨blankPattern, st.current_x, cy⟩],
    dots := st.dots }

/-- Python's `str.isupper()` over ASCII: at least one cased character and no
lowercase one. -/
def pyIsUpper (w : List Char) : Bool :=
  w.any (fun c => c.isUpper || c.isLower) && w.all (fun c => !c.isLower)

/-- How many CAPS marker cells the source emits in front of a word: the
`if word.isupper() and len(word) > 1 / elif word and word[0].isupper()`
chain. -/
def capsCellCount (w : List Char) : Nat :=
  if pyIsUpper w && decide (1 < w.length) then 2
  else if !w.isEmpty && (w.headD ' ').isUpper then 1
  else 0

/-- The body of the source's word loop: the empty-word short-circuit, the
capitalization marker cells, the per-character cells, and the inter-word gap
cell when the word is not the last of its line. -/
def processWord (cfg : LayoutConfig) (cy : ℚ) (isLast : Bool) (w : List Char)
    (st : LineState) : LineState :=
  if w.isEmpty then
    emitBlank cfg cy st
  else
    let st1 :=
      if pyIsUpper w && decide (1 < w.length) then
        emitCell cfg cy capsPattern (emitCell cfg cy capsPattern st)
      else if !w.isEmpty && (w.headD ' ').isUpper then
        emitCell cfg cy capsPattern st
      else st
    let st2 := (w.map Char.toLower).foldl
      (fun s c => emitCell cfg cy (lookup_pattern c) s) st1
    if isLast then st2 else emitBlank cfg cy st2

/-- Python's `str.split(sep)` for a one-character separator: splits on every
occurrence and keeps empty pieces, so the result is never empty. -/
def splitOnChar (sep : Char) : List Char → List (List Char)
  | [] => [[]]
  | c :: cs =>
    match splitOnChar sep cs with
    | [] => [[]]
    | w :: ws => if c == sep then [] :: w :: ws else (c :: w) :: ws

/-- The word loop over `enumerate(words)`: every word but the last is
processed with `word_index < len(words) - 1` true. -/
def processWords (cfg : LayoutConfig) (cy : ℚ) :
    List (List Char) → LineState → LineState
  | [], st => st
  | [w], st => processWord cfg cy true w st
  | w :: w2 :: ws, st => processWords cfg cy (w2 :: ws) (processWord cfg cy false w st)

/-- One iteration of the line loop: `current_x = 0.0; cells_this_line = 0;
words = line.split(' ')`, then the word loop. -/
def processLine (cfg : LayoutConfig) (cy : ℚ) (line : List Char) : LineState :=
  processWords cfg cy (splitOnChar ' ' line) ⟨0, [], []⟩

/-- The line loop: process each line, then `current_y -= line_spacing_y`. -/
def processLines (cfg : LayoutConfig) : List (List Char) → ℚ → List LineState
  | [], _ => []
  | l :: ls, cy => processLine cfg cy l :: processLines cfg ls (cy - cfg.line_spacing_y)

/-- The per-line states of a whole text: lines are split on the newline and
processing starts at `current_y = 0.0`. -/
def lineStates (cfg : LayoutConfig) (text : List Char) : List LineState :=
  processLines cfg (splitOnChar '\n' text) 0

/-- The plate geometry computed after the line loop. -/
structure PlateGeom where
  origin_span_x : ℚ
  top_y : ℚ
  bottom_y : ℚ
  base_width : ℚ
  base_depth : ℚ
  base_center_x : ℚ
  base_center_y : ℚ
  base_center_z : ℚ
  base_height : ℚ
  deriving DecidableEq

/-- The engine's output when something was placed: the ordered dots, the
observable counters and the plate geometry. -/
structure LayoutResult where
  dots : List DotPlacement
  max_cells : Nat
  num_lines : Nat
  geom : PlateGeom
  deriving DecidableEq

/-- A junk `LayoutResult` used only as the default of `Option.getD` in
statements about results that are known to exist. -/
def emptyResult : LayoutResult :=
  { dots := [], max_cells := 0, num_lines := 0,
    geom := { origin_span_x := 0, top_y := 0, bottom_y := 0,
              base_width := 0, base_depth := 0, base_center_x := 0,
              base_center_y := 0, base_center_z := 0, base_height := 0 } }

/-- `generate_braille_text`: the whole layout computation. `none` is the
source's early `return` ("No text to generate. Aborting base creation.")
taken when no cell was counted on any line; `some` carries the dots and the
plate geometry the source computes after the loop. -/
def generate_braille_text (text : List Char) (cfg : LayoutConfig) :
    Option LayoutResult :=
  let lines := splitOnChar '\n' text
  let num_lines := lines.length
  let sts := processLines cfg lines 0
  let max_cells : Nat := sts.foldl (fun m st => max m st.emitted.length) 0
  if max_cells = 0 then none
  else
    let origin_span_x := ((max_cells : ℚ) - 1) * cfg.cell_spacing_x + cfg.dot_spacing_x
    let top_y := 2 * cfg.dot_spacing_y
    let bottom_y := -(((num_lines : ℚ) - 1) * cfg.line_spacing_y)
    let origin_span_y := top_y - bottom_y
    let geom_width := origin_span_x + 2 * cfg.dot_radius
    let geom_depth := origin_span_y + 2 * cfg.dot_radius
    some
      { dots := (sts.map LineState.dots).flatten,
        max_cells := max_cells,
        num_lines := num_lines,
        geom :=
          { origin_span_x := origin_span_x,
            top_y := top_y,
            bottom_y := bottom_y,
            base_width := geom_width + 2 * cfg.padding_x,
            base_depth := geom_depth + 2 * cfg.padding_y,
            base_center_x := origin_span_x / 2,
            base_center_y := (top_y + bottom_y) / 2,
            base_center_z := 0,
            base_height := cfg.base_height } }

/-- The spec's name for the engine's entry point. -/
abbrev layout (text : List Char) (cfg : LayoutConfig) : Option LayoutResult :=
  generate_braille_text text cfg

/-- The sequence of cell patterns a line state has counted, in emission
order. -/
def patternsOf (st : LineState) : List Pattern :=
  st.emitted.map EmittedCell.pat

/-- The cursor/trace invariant of one line: the cursor always equals the
number of counted cells times `cell_spacing_x`, and the k-th counted cell
has origin `(k * cell_spacing_x, cy)`. -/
def aligned (cfg : LayoutConfig) (cy : ℚ) (st : LineState) : Prop :=
  st.current_x = st.emitted.length * cfg.cell_spacing_x ∧
  ∀ k : ℕ, ∀ e : EmittedCell, st.emitted[k]? = some e →
    e.x = k * cfg.cell_spacing_x ∧ e.y = cy

/-- Every dot of the list sits at height `base_height / 2` and carries the
configured radius and height. -/
def goodDots (cfg : LayoutConfig) (l : List DotPlacement) : Prop :=
  ∀ d ∈ l, d.z = cfg.base_height / 2 ∧ d.radius = cfg.dot_radius ∧
    d.height = cfg.dot_height

/-- The spec's first capitalization example input. -/
def textHi : List Char := ("Hi there").toList

/-- The spec's second capitalization example input. -/
def textHI : List Char := ("HI there").toList

/-- A line made of three word separators. -/
def threeSpaces : List Char := ("   ").toList

/-- A text whose second line holds only word separators. -/
def textSepLine : List Char := ("a\n   ").toList

end Braille

namespace Braille

/-! ## Helper lemmas -/

/-- `emitBlank` counts exactly one blank cell: one blank entry is appended
to the trace, the cursor advances by `cell_spacing_x`, no dot is created. -/
theorem emitBlank_spec (cfg : LayoutConfig) (cy : ℚ) (st : LineState) :
    (emitBlank cfg cy st).emitted = st.emitted ++ [⟨blankPattern, st.current_x, cy⟩] ∧
    (emitBlank cfg cy st).current_x = st.current_x + cfg.cell_spacing_x ∧
    (emitBlank cfg cy st).dots = st.dots :=
  ⟨rfl, rfl, rfl⟩

/-- An empty word takes the short-circuit branch: one blank cell, whether or
not it is the last word of its line. -/
theorem processWord_nil (cfg : LayoutConfig) (cy : ℚ) (b : Bool) (st : LineState) :
    processWord cfg cy b [] st = emitBlank cfg cy st :=
  rfl

/-- A non-empty word that is not the last of its line emits exactly what the
same word emits as last word, followed by one blank gap cell. -/
theorem processWord_not_last (cfg : LayoutConfig) (cy : ℚ) (w : List Char)
    (st : LineState) (hw : w ≠ []) :
    processWord cfg cy false w st = emitBlank cfg cy (processWord cfg cy true w st) := by
  cases w with
  | nil => exact absurd rfl hw
  | cons c cs => simp only [processWord, List.isEmpty_cons, Bool.false_eq_true,
      if_false, if_true]

/-! ## Claim theorems -/

/-- C9: the layout computation is deterministic: two invocations with equal
arguments yield equal results (deep equality of the full `LayoutResult`). -/
theorem layout_deterministic (t1 t2 : List Char) (c1 c2 : LayoutConfig)
    (ht : t1 = t2) (hc : c1 = c2) :
    generate_braille_text t1 c1 = generate_braille_text t2 c2 := by
  rw [ht, hc]

/-- Witness for C9 at a concrete input. -/
theorem layout_deterministic_witness :
    generate_braille_text ['a'] defaultConfig = generate_braille_text ['a'] defaultConfig :=
  layout_deterministic ['a'] ['a'] defaultConfig defaultConfig rfl rfl

/-- C1 (code evaluated at the failing input): for every configuration, both
the empty text and the text of two line breaks still count one blank cell
per (empty) line, so `max_cells = 1`, the "nothing to place" early return is
not taken, and the plate geometry is computed. -/
theorem empty_text_still_places (cfg : LayoutConfig) :
    (generate_braille_text [] cfg).isSome = true
  ∧ ((generate_braille_text [] cfg).getD emptyResult).max_cells = 1
  ∧ ((generate_braille_text [] cfg).getD emptyResult).num_lines = 1
  ∧ (generate_braille_text ['\n', '\n'] cfg).isSome = true
  ∧ ((generate_braille_text ['\n', '\n'] cfg).getD emptyResult).max_cells = 1
  ∧ ((generate_braille_text ['\n', '\n'] cfg).getD emptyResult).num_lines = 3 :=
  ⟨rfl, rfl, rfl, rfl, rfl, rfl⟩

/-- C5: on any configuration, `"Hi there"` emits, on one line and in order,
one CAPS cell, the h cell, the i cell, one blank word-gap cell, then the
t, h, e, r, e cells - nine cells in all; `"HI there"` emits two CAPS cells
before h, i - ten cells in all. -/
theorem hi_there_cells (cfg : LayoutConfig) :
    (lineStates cfg textHi).map patternsOf
      = [[capsPattern, lookup_pattern 'h', lookup_pattern 'i', blankPattern,
          lookup_pattern 't', lookup_pattern 'h', lookup_pattern 'e',
          lookup_pattern 'r', lookup_pattern 'e']]
  ∧ ((generate_braille_text textHi cfg).getD emptyResult).max_cells = 9
  ∧ (lineStates cfg textHI).map patternsOf
      = [[capsPattern, capsPattern, lookup_pattern 'h', lookup_pattern 'i',
          blankPattern, lookup_pattern 't', lookup_pattern 'h',
          lookup_pattern 'e', lookup_pattern 'r', lookup_pattern 'e']]
  ∧ ((generate_braille_text textHI cfg).getD emptyResult).max_cells = 10 :=
  ⟨rfl, rfl, rfl, rfl⟩

/-- C2 counterexample: a line of three word separators counts four blank
cells, not zero, and that count reaches the max-cell computation: for
`"a\n   "` the plate is sized from `max_cells = 4`, not from the single
cell of the first line. -/
theorem separator_line_counterexample :
    (processLine defaultConfig 0 threeSpaces).emitted.length = 4
  ∧ ((generate_braille_text textSepLine defaultConfig).getD emptyResult).max_cells = 4 :=
  ⟨rfl, rfl⟩


/-- C8: lookup is case-insensitive on every supported character, and a
character whose lowercasing is not a key of the map encodes to the all-zero
blank pattern (the computation is total - nothing is raised). -/
theorem encode_character_cases (c : Char) (csup : Char)
    (hsup : csup ∈ supportedChars) (hmiss : braille_map c.toLower = none) :
    encode_character (Char.toUpper csup) = encode_character csup
  ∧ encode_character c = blankPattern := by
  constructor
  · revert hsup
    revert csup
    decide
  · simp [encode_character, lookup_pattern, hmiss, Option.getD]

/-- Witness for C8 at a concrete supported and a concrete unmapped input. -/
theorem encode_character_cases_witness :
    encode_character (Char.toUpper 'h') = encode_character 'h'
  ∧ encode_character '?' = blankPattern :=
  encode_character_cases '?' 'h' (by decide) (by decide)

/-- C3: a non-last word is followed by exactly one extra blank cell that
advances the cursor by `cell_spacing_x` and creates no dot; an empty word
(from consecutive separators) consumes exactly one such blank cell - for
any word position - so separators are never collapsed. -/
theorem word_separator_cells (cfg : LayoutConfig) (cy : ℚ) (w : List Char)
    (st : LineState) (hw : w ≠ []) :
    processWord cfg cy false w st = emitBlank cfg cy (processWord cfg cy true w st)
  ∧ (∀ b : Bool, processWord cfg cy b [] st = emitBlank cfg cy st)
  ∧ (emitBlank cfg cy st).emitted = st.emitted ++ [⟨blankPattern, st.current_x, cy⟩]
  ∧ (emitBlank cfg cy st).emitted.length = st.emitted.length + 1
  ∧ (emitBlank cfg cy st).current_x = st.current_x + cfg.cell_spacing_x
  ∧ (emitBlank cfg cy st).dots = st.dots :=
  ⟨processWord_not_last cfg cy w st hw,
   fun b => processWord_nil cfg cy b st,
   rfl, by simp [emitBlank], rfl, rfl⟩

/-- Witness for C3 at a concrete word and state. -/
theorem word_separator_cells_witness :
    processWord defaultConfig 0 false ['a'] ⟨0, [], []⟩
      = emitBlank defaultConfig 0 (processWord defaultConfig 0 true ['a'] ⟨0, [], []⟩) :=
  (word_separator_cells defaultConfig 0 ['a'] ⟨0, [], []⟩ (by decide)).1


/-- An ASCII lowercase character is not uppercase. -/
theorem isUpper_false_of_isLower (c : Char) : c.isLower = true → c.isUpper = false := by
  simp [Char.isLower, Char.isUpper, UInt32.le_def, BitVec.le_def]
  omega

/-- Python's `isupper` on a word: true exactly when the word has a letter
and every letter it has is uppercase (over ASCII, cased = alphabetic). -/
theorem pyIsUpper_eq_true_iff (w : List Char) :
    pyIsUpper w = true ↔
      (∃ c ∈ w, c.isAlpha = true) ∧ ∀ c ∈ w, c.isAlpha = true → c.isUpper = true := by
  simp only [pyIsUpper, Bool.and_eq_true, List.any_eq_true, List.all_eq_true,
    Bool.or_eq_true, Bool.not_eq_true']
  constructor
  · rintro ⟨⟨c, hc, hcase⟩, hall⟩
    refine ⟨⟨c, hc, ?_⟩, fun d hd hda => ?_⟩
    · simpa [Char.isAlpha] using hcase
    · have hdl : d.isLower = false := hall d hd
      have : (d.isUpper || d.isLower) = true := hda
      simpa [hdl] using this
  · rintro ⟨⟨c, hc, hca⟩, hall⟩
    refine ⟨⟨c, hc, by simpa [Char.isAlpha] using hca⟩, fun d hd => ?_⟩
    by_cases hdl : d.isLower = true
    · have hda : d.isAlpha = true := by simp [Char.isAlpha, hdl]
      exact absurd (hall d hd hda) (by simp [isUpper_false_of_isLower d hdl])
    · simpa using hdl

/-- `emitCell` appends its pattern to the trace. -/
theorem patternsOf_emitCell (cfg : LayoutConfig) (cy : ℚ) (p : Pattern)
    (st : LineState) :
    patternsOf (emitCell cfg cy p st) = patternsOf st ++ [p] := by
  simp [patternsOf, emitCell]

/-- `emitBlank` appends the blank pattern to the trace. -/
theorem patternsOf_emitBlank (cfg : LayoutConfig) (cy : ℚ) (st : LineState) :
    patternsOf (emitBlank cfg cy st) = patternsOf st ++ [blankPattern] := by
  simp [patternsOf, emitBlank]

/-- The characters of a word each append their looked-up pattern to the
trace, in order. -/
theorem foldl_emitCell_patterns (cfg : LayoutConfig) (cy : ℚ) (cs : List Char)
    (st : LineState) :
    patternsOf (cs.foldl (fun s c => emitCell cfg cy (lookup_pattern c) s) st)
      = patternsOf st ++ cs.map lookup_pattern := by
  induction cs generalizing st with
  | nil => simp
  | cons c cs ih =>
    rw [List.foldl_cons, ih, patternsOf_emitCell]
    simp

/-- What a non-empty last word of a line emits: its CAPS marker cells, then
one looked-up cell per (lowercased) character. -/
theorem processWord_patterns (cfg : LayoutConfig) (cy : ℚ) (w : List Char)
    (st : LineState) (hw : w ≠ []) :
    patternsOf (processWord cfg cy true w st)
      = patternsOf st ++ List.replicate (capsCellCount w) capsPattern
          ++ (w.map Char.toLower).map lookup_pattern := by
  have hne : w.isEmpty = false := by
    cases w
    · exact absurd rfl hw
    · rfl
  by_cases h1 : (pyIsUpper w && decide (1 < w.length)) = true
  · simp [processWord, capsCellCount, hne, h1, foldl_emitCell_patterns,
      patternsOf_emitCell]
  · by_cases hu : (w.head?.getD ' ').isUpper = true
    · simp [processWord, capsCellCount, hne, h1, hu, foldl_emitCell_patterns,
        patternsOf_emitCell]
    · simp [processWord, capsCellCount, hne, h1, hu, foldl_emitCell_patterns]


/-- C4: for a word with at least one letter, the two-CAPS marker is emitted
exactly when the word is longer than one character and all its letters are
uppercase; otherwise an uppercase first character yields exactly one CAPS
marker, so a single uppercase letter gets one CAPS cell, not two; and the
emitted trace is the CAPS markers followed by the word's letter cells. -/
theorem caps_marker_rule (cfg : LayoutConfig) (cy : ℚ) (w : List Char)
    (st : LineState) (hw : ∃ c ∈ w, c.isAlpha = true) :
    ((1 < w.length ∧ ∀ c ∈ w, c.isAlpha = true → c.isUpper = true) →
        capsCellCount w = 2)
  ∧ (¬(1 < w.length ∧ ∀ c ∈ w, c.isAlpha = true → c.isUpper = true) →
        (w.headD ' ').isUpper = true → capsCellCount w = 1)
  ∧ (w.length = 1 → (w.headD ' ').isUpper = true → capsCellCount w = 1)
  ∧ patternsOf (processWord cfg cy true w st)
      = patternsOf st ++ List.replicate (capsCellCount w) capsPattern
          ++ (w.map Char.toLower).map lookup_pattern := by
  have hwne : w ≠ [] := by
    rintro rfl
    obtain ⟨c, hc, -⟩ := hw
    exact absurd hc (List.not_mem_nil c)
  have hne : w.isEmpty = false := by
    cases w
    · exact absurd rfl hwne
    · rfl
  refine ⟨?_, ?_, ?_, processWord_patterns cfg cy w st hwne⟩
  · rintro ⟨hlen, hall⟩
    have hup : pyIsUpper w = true := (pyIsUpper_eq_true_iff w).2 ⟨hw, hall⟩
    simp [capsCellCount, hup, hlen]
  · intro hnot hhead
    have h1 : (pyIsUpper w && decide (1 < w.length)) = false := by
      rcases Bool.eq_false_or_eq_true (pyIsUpper w && decide (1 < w.length)) with h | h
      · obtain ⟨hup, hlen⟩ : pyIsUpper w = true ∧ 1 < w.length := by simpa using h
        exact absurd ⟨hlen, ((pyIsUpper_eq_true_iff w).1 hup).2⟩ hnot
      · exact h
    simp [capsCellCount, h1, hne]
    simpa using hhead
  · intro hlen hhead
    have h1 : decide (1 < w.length) = false := by simp [hlen]
    simp [capsCellCount, h1, hne]
    simpa using hhead

/-- Witness for C4 at concrete words: a two-letter all-caps word gets two
CAPS markers, a one-letter uppercase word gets one. -/
theorem caps_marker_rule_witness :
    capsCellCount ['H', 'I'] = 2 ∧ capsCellCount ['A'] = 1 :=
  ⟨(caps_marker_rule defaultConfig 0 ['H', 'I'] ⟨0, [], []⟩ (by decide)).1
      ⟨by decide, by decide⟩,
   (caps_marker_rule defaultConfig 0 ['A'] ⟨0, [], []⟩ (by decide)).2.2.1
      (by decide) (by decide)⟩


/-- Counting one cell preserves the cursor/trace alignment of a line: the
new cell's origin is the old cursor position, which already equals the old
cell count times `cell_spacing_x`. -/
theorem aligned_emit (cfg : LayoutConfig) (cy : ℚ) (st : LineState) (p : Pattern)
    (dts : List DotPlacement) (h : aligned cfg cy st) :
    aligned cfg cy
      ⟨st.current_x + cfg.cell_spacing_x,
       st.emitted ++ [⟨p, st.current_x, cy⟩], dts⟩ := by
  obtain ⟨hx, hk⟩ := h
  constructor
  · simp only [List.length_append, List.length_singleton]
    push_cast
    rw [hx]
    ring
  · intro k e hke
    rw [List.getElem?_append] at hke
    split at hke
    · exact hk k e hke
    · rename_i hge
      have hkl : k = st.emitted.length := by
        rcases Nat.lt_or_ge k (st.emitted.length + 1) with hlt | hge2
        · omega
        · exfalso
          rw [List.getElem?_eq_none] at hke
          · exact Option.noConfusion hke
          · simpa using by omega
      subst hkl
      simp only [Nat.sub_self, List.getElem?_cons_zero, Option.some.injEq] at hke
      subst hke
      exact ⟨hx, rfl⟩

/-- `emitCell` preserves the alignment invariant. -/
theorem aligned_emitNonBlank (cfg : LayoutConfig) (cy : ℚ) (p : Pattern)
    (st : LineState) (h : aligned cfg cy st) :
    aligned cfg cy (emitCell cfg cy p st) :=
  aligned_emit cfg cy st p _ h

/-- `emitBlank` preserves the alignment invariant. -/
theorem aligned_emitGap (cfg : LayoutConfig) (cy : ℚ) (st : LineState)
    (h : aligned cfg cy st) :
    aligned cfg cy (emitBlank cfg cy st) :=
  aligned_emit cfg cy st blankPattern _ h

/-- The character loop of a word preserves the alignment invariant. -/
theorem aligned_foldl (cfg : LayoutConfig) (cy : ℚ) (cs : List Char)
    (st : LineState) (h : aligned cfg cy st) :
    aligned cfg cy
      (cs.foldl (fun s c => emitCell cfg cy (lookup_pattern c) s) st) := by
  induction cs generalizing st with
  | nil => exact h
  | cons c cs ih => exact ih _ (aligned_emitNonBlank cfg cy (lookup_pattern c) st h)

/-- `processWord` on a non-empty word, written without the intermediate
`let` bindings. -/
theorem processWord_cons (cfg : LayoutConfig) (cy : ℚ) (b : Bool) (c : Char)
    (cs : List Char) (st : LineState) :
    processWord cfg cy b (c :: cs) st =
      (fun st2 => if b then st2 else emitBlank cfg cy st2)
        (((c :: cs).map Char.toLower).foldl
          (fun s x => emitCell cfg cy (lookup_pattern x) s)
          (if pyIsUpper (c :: cs) && decide (1 < (c :: cs).length) then
            emitCell cfg cy capsPattern (emitCell cfg cy capsPattern st)
          else if !(c :: cs).isEmpty && ((c :: cs).headD ' ').isUpper then
            emitCell cfg cy capsPattern st
          else st)) :=
  rfl

/-- A whole word preserves the alignment invariant. -/
theorem aligned_processWord (cfg : LayoutConfig) (cy : ℚ) (b : Bool)
    (w : List Char) (st : LineState) (h : aligned cfg cy st) :
    aligned cfg cy (processWord cfg cy b w st) := by
  cases w with
  | nil =>
    rw [processWord_nil]
    exact aligned_emitGap cfg cy st h
  | cons c cs =>
    rw [processWord_cons]
    have hcaps : aligned cfg cy
        (if pyIsUpper (c :: cs) && decide (1 < (c :: cs).length) then
          emitCell cfg cy capsPattern (emitCell cfg cy capsPattern st)
        else if !(c :: cs).isEmpty && ((c :: cs).headD ' ').isUpper then
          emitCell cfg cy capsPattern st
        else st) := by
      split
      · exact aligned_emitNonBlank cfg cy capsPattern _
          (aligned_emitNonBlank cfg cy capsPattern st h)
      · split
        · exact aligned_emitNonBlank cfg cy capsPattern st h
        · exact h
    have hchars := aligned_foldl cfg cy ((c :: cs).map Char.toLower) _ hcaps
    cases b
    · exact aligned_emitGap cfg cy _ hchars
    · exact hchars

/-- The word loop of a line preserves the alignment invariant. -/
theorem aligned_processWords (cfg : LayoutConfig) (cy : ℚ)
    (ws : List (List Char)) (st : LineState) (h : aligned cfg cy st) :
    aligned cfg cy (processWords cfg cy ws st) := by
  induction ws generalizing st with
  | nil => exact h
  | cons w ws ih =>
    cases ws with
    | nil => exact aligned_processWord cfg cy true w st h
    | cons w2 ws2 => exact ih _ (aligned_processWord cfg cy false w st h)

/-- Every fully processed line satisfies the alignment invariant. -/
theorem aligned_processLine (cfg : LayoutConfig) (cy : ℚ) (line : List Char) :
    aligned cfg cy (processLine cfg cy line) := by
  apply aligned_processWords
  constructor
  · simp
  · intro k e hke
    simp at hke

/-- The i-th line of the line loop is processed with the running vertical
cursor decremented i times. -/
theorem processLines_getElem? (cfg : LayoutConfig) (ls : List (List Char))
    (cy : ℚ) (i : ℕ) :
    (processLines cfg ls cy)[i]? =
      (ls[i]?).map (fun l => processLine cfg (cy - i * cfg.line_spacing_y) l) := by
  induction ls generalizing cy i with
  | nil => simp [processLines]
  | cons l ls ih =>
    cases i with
    | zero => simp [processLines]
    | succ i =>
      have harith : ∀ q : ℚ, cy - q - (i : ℚ) * q = cy - ((i : ℚ) + 1) * q :=
        fun q => by ring
      simp [processLines, ih, harith]

/-- C10: in every laid-out text, the k-th counted cell (CAPS, character and
blank cells alike) of the line with 0-based index i has origin exactly
`(k * cell_spacing_x, -(i * line_spacing_y))`, and after the line the cursor
equals the line's cell count times `cell_spacing_x`. -/
theorem cell_origin_invariant (cfg : LayoutConfig) (text : List Char) (i k : ℕ)
    (st : LineState) (e : EmittedCell)
    (hi : (lineStates cfg text)[i]? = some st)
    (hk : st.emitted[k]? = some e) :
    e.x = (k : ℚ) * cfg.cell_spacing_x
  ∧ e.y = -((i : ℚ) * cfg.line_spacing_y)
  ∧ st.current_x = (st.emitted.length : ℚ) * cfg.cell_spacing_x := by
  rw [lineStates, processLines_getElem?] at hi
  obtain ⟨l, -, hst⟩ := Option.map_eq_some'.1 hi
  subst hst
  obtain ⟨hx, hall⟩ := aligned_processLine cfg ((0 : ℚ) - i * cfg.line_spacing_y) l
  obtain ⟨hex, hey⟩ := hall k e hk
  refine ⟨hex, ?_, hx⟩
  rw [hey]
  ring

/-- Witness for C10: in `"ab"`, the second cell of the first line sits at
`(1 * cell_spacing_x, -(0 * line_spacing_y))`. -/
theorem cell_origin_invariant_witness :
    ((processLine defaultConfig 0 ['a', 'b']).emitted[1]?.getD (⟨blankPattern, 0, 0⟩ : EmittedCell)).x
        = ((1 : ℕ) : ℚ) * defaultConfig.cell_spacing_x
  ∧ ((processLine defaultConfig 0 ['a', 'b']).emitted[1]?.getD (⟨blankPattern, 0, 0⟩ : EmittedCell)).y
        = -(((0 : ℕ) : ℚ) * defaultConfig.line_spacing_y)
  ∧ (processLine defaultConfig 0 ['a', 'b']).current_x
        = ((processLine defaultConfig 0 ['a', 'b']).emitted.length : ℚ)
            * defaultConfig.cell_spacing_x :=
  cell_origin_invariant defaultConfig ['a', 'b'] 0 1
    (processLine defaultConfig 0 ['a', 'b'])
    ((processLine defaultConfig 0 ['a', 'b']).emitted[1]?.getD (⟨blankPattern, 0, 0⟩ : EmittedCell))
    rfl rfl


/-- C6: whenever at least one cell was counted (the `some` case), the plate
geometry satisfies exactly the source's formulas. -/
theorem plate_geometry_formulas (text : List Char) (cfg : LayoutConfig)
    (r : LayoutResult) (h : generate_braille_text text cfg = some r) :
    r.geom.origin_span_x
        = ((r.max_cells : ℚ) - 1) * cfg.cell_spacing_x + cfg.dot_spacing_x
  ∧ r.geom.top_y = 2 * cfg.dot_spacing_y
  ∧ r.geom.bottom_y = -(((r.num_lines : ℚ) - 1) * cfg.line_spacing_y)
  ∧ r.geom.base_width
        = r.geom.origin_span_x + 2 * cfg.dot_radius + 2 * cfg.padding_x
  ∧ r.geom.base_depth
        = (r.geom.top_y - r.geom.bottom_y) + 2 * cfg.dot_radius + 2 * cfg.padding_y
  ∧ r.geom.base_center_x = r.geom.origin_span_x / 2
  ∧ r.geom.base_center_y = (r.geom.top_y + r.geom.bottom_y) / 2
  ∧ r.geom.base_center_z = 0
  ∧ r.geom.base_height = cfg.base_height := by
  simp only [generate_braille_text] at h
  split at h
  · exact absurd h (by simp)
  · obtain rfl : _ = r := Option.some.inj h
    exact ⟨rfl, rfl, rfl, rfl, rfl, rfl, rfl, rfl, rfl⟩

/-- Witness for C6 at `"a"` with the default configuration. -/
theorem plate_geometry_formulas_witness :
    ((generate_braille_text ['a'] defaultConfig).getD emptyResult).geom.base_width
      = ((generate_braille_text ['a'] defaultConfig).getD emptyResult).geom.origin_span_x
          + 2 * defaultConfig.dot_radius + 2 * defaultConfig.padding_x :=
  (plate_geometry_formulas ['a'] defaultConfig
    ((generate_braille_text ['a'] defaultConfig).getD emptyResult) rfl).2.2.2.1

/-- Every dot `_generate_cell` creates sits at `z = base_height / 2` and
carries the configured radius and height. -/
theorem goodDots_generate_cell (cfg : LayoutConfig) (p : Pattern) (x y : ℚ) :
    goodDots cfg (generate_cell cfg p x y) := by
  intro d hd
  simp only [generate_cell, List.mem_filterMap, List.mem_range] at hd
  obtain ⟨i, -, hi⟩ := hd
  split at hi
  · obtain rfl : _ = d := Option.some.inj hi
    exact ⟨rfl, rfl, rfl⟩
  · exact absurd hi (by simp)

/-- `goodDots` is closed under list concatenation. -/
theorem goodDots_append (cfg : LayoutConfig) (l1 l2 : List DotPlacement)
    (h1 : goodDots cfg l1) (h2 : goodDots cfg l2) : goodDots cfg (l1 ++ l2) := by
  intro d hd
  rcases List.mem_append.1 hd with hm | hm
  · exact h1 d hm
  · exact h2 d hm

/-- The character loop preserves `goodDots` of the accumulated dots. -/
theorem goodDots_foldl (cfg : LayoutConfig) (cy : ℚ) (cs : List Char)
    (st : LineState) (h : goodDots cfg st.dots) :
    goodDots cfg
      ((cs.foldl (fun s c => emitCell cfg cy (lookup_pattern c) s) st).dots) := by
  induction cs generalizing st with
  | nil => exact h
  | cons c cs ih =>
    exact ih _ (goodDots_append cfg _ _ h (goodDots_generate_cell cfg _ _ _))

/-- A whole word preserves `goodDots` of the accumulated dots. -/
theorem goodDots_processWord (cfg : LayoutConfig) (cy : ℚ) (b : Bool)
    (w : List Char) (st : LineState) (h : goodDots cfg st.dots) :
    goodDots cfg ((processWord cfg cy b w st).dots) := by
  cases w with
  | nil =>
    rw [processWord_nil]
    exact h
  | cons c cs =>
    rw [processWord_cons]
    have hcaps : goodDots cfg
        ((if pyIsUpper (c :: cs) && decide (1 < (c :: cs).length) then
          emitCell cfg cy capsPattern (emitCell cfg cy capsPattern st)
        else if !(c :: cs).isEmpty && ((c :: cs).headD ' ').isUpper then
          emitCell cfg cy capsPattern st
        else st).dots) := by
      split
      · exact goodDots_append cfg _ _
          (goodDots_append cfg _ _ h (goodDots_generate_cell cfg _ _ _))
          (goodDots_generate_cell cfg _ _ _)
      · split
        · exact goodDots_append cfg _ _ h (goodDots_generate_cell cfg _ _ _)
        · exact h
    have hchars := goodDots_foldl cfg cy ((c :: cs).map Char.toLower) _ hcaps
    cases b
    · exact hchars
    · exact hchars

/-- The word loop preserves `goodDots` of the accumulated dots. -/
theorem goodDots_processWords (cfg : LayoutConfig) (cy : ℚ)
    (ws : List (List Char)) (st : LineState) (h : goodDots cfg st.dots) :
    goodDots cfg ((processWords cfg cy ws st).dots) := by
  induction ws generalizing st with
  | nil => exact h
  | cons w ws ih =>
    cases ws with
    | nil => exact goodDots_processWord cfg cy true w st h
    | cons w2 ws2 => exact ih _ (goodDots_processWord cfg cy false w st h)

/-- Every fully processed line has only good dots. -/
theorem goodDots_processLine (cfg : LayoutConfig) (cy : ℚ) (line : List Char) :
    goodDots cfg ((processLine cfg cy line).dots) := by
  apply goodDots_processWords
  intro d hd
  exact absurd hd (List.not_mem_nil d)

/-- Every state of the line loop has only good dots. -/
theorem goodDots_processLines (cfg : LayoutConfig) (ls : List (List Char))
    (cy : ℚ) (st : LineState) (hst : st ∈ processLines cfg ls cy) :
    goodDots cfg st.dots := by
  induction ls generalizing cy with
  | nil => exact absurd hst (List.not_mem_nil st)
  | cons l ls ih =>
    rcases List.mem_cons.1 hst with rfl | hm
    · exact goodDots_processLine cfg cy l
    · exact ih _ hm

/-- The dots of a laid-out result are the per-line dots, in line order. -/
theorem result_dots (text : List Char) (cfg : LayoutConfig) (r : LayoutResult)
    (h : generate_braille_text text cfg = some r) :
    r.dots = ((lineStates cfg text).map LineState.dots).flatten := by
  simp only [generate_braille_text] at h
  split at h
  · exact absurd h (by simp)
  · obtain rfl : _ = r := Option.some.inj h
    rfl

/-- C7: every produced dot placement has its z coordinate equal to
`base_height / 2` and carries the configured `dot_radius` and `dot_height`
unchanged. -/
theorem dot_placement_fields (text : List Char) (cfg : LayoutConfig)
    (r : LayoutResult) (h : generate_braille_text text cfg = some r)
    (d : DotPlacement) (hd : d ∈ r.dots) :
    d.z = cfg.base_height / 2 ∧ d.radius = cfg.dot_radius ∧
      d.height = cfg.dot_height := by
  rw [result_dots text cfg r h] at hd
  rw [List.mem_flatten] at hd
  obtain ⟨l, hl, hdl⟩ := hd
  obtain ⟨st, hst, rfl⟩ := List.mem_map.1 hl
  exact goodDots_processLines cfg _ 0 st hst d hdl

/-- The single-dot result of `"a"` has a non-empty dot list. -/
theorem layout_a_dots_ne_nil :
    ((generate_braille_text ['a'] defaultConfig).getD emptyResult).dots ≠ [] := by
  decide

/-- Witness for C7: the single dot of `"a"` with the default configuration. -/
theorem dot_placement_fields_witness :
    (((generate_braille_text ['a'] defaultConfig).getD emptyResult).dots.head
        layout_a_dots_ne_nil).z = defaultConfig.base_height / 2
  ∧ (((generate_braille_text ['a'] defaultConfig).getD emptyResult).dots.head
        layout_a_dots_ne_nil).radius = defaultConfig.dot_radius
  ∧ (((generate_braille_text ['a'] defaultConfig).getD emptyResult).dots.head
        layout_a_dots_ne_nil).height = defaultConfig.dot_height :=
  dot_placement_fields ['a'] defaultConfig
    ((generate_braille_text ['a'] defaultConfig).getD emptyResult) rfl
    (((generate_braille_text ['a'] defaultConfig).getD emptyResult).dots.head
        layout_a_dots_ne_nil)
    (List.head_mem layout_a_dots_ne_nil)


/-- Splitting a run of separators yields one empty word per gap: n
separators give n + 1 empty words. -/
theorem splitOnChar_all_sep (sep : Char) (l : List Char) (h : ∀ c ∈ l, c = sep) :
    splitOnChar sep l = List.replicate (l.length + 1) [] := by
  induction l with
  | nil => rfl
  | cons c cs ih =>
    have hc : c = sep := h c (List.mem_cons_self c cs)
    have hcs := ih (fun x hx => h x (List.mem_cons_of_mem c hx))
    simp [splitOnChar, hcs, hc, List.replicate_succ]

/-- Each of a run of empty words counts exactly one blank cell and creates
no dot. -/
theorem processWords_replicate_empty (cfg : LayoutConfig) (cy : ℚ) (n : ℕ)
    (st : LineState) :
    (processWords cfg cy (List.replicate (n + 1) ([] : List Char)) st).emitted.length
        = st.emitted.length + (n + 1)
  ∧ patternsOf (processWords cfg cy (List.replicate (n + 1) ([] : List Char)) st)
        = patternsOf st ++ List.replicate (n + 1) blankPattern
  ∧ (processWords cfg cy (List.replicate (n + 1) ([] : List Char)) st).dots
        = st.dots := by
  induction n generalizing st with
  | zero =>
    refine ⟨?_, ?_, ?_⟩ <;>
      simp [List.replicate, processWords, processWord_nil, emitBlank, patternsOf]
  | succ n ih =>
    have hrep : List.replicate (n + 1 + 1) ([] : List Char)
        = [] :: List.replicate (n + 1) ([] : List Char) := List.replicate_succ ..
    have hrep2 : List.replicate (n + 1) ([] : List Char)
        = [] :: List.replicate n ([] : List Char) := List.replicate_succ ..
    have hpw : processWords cfg cy (List.replicate (n + 1 + 1) ([] : List Char)) st
        = processWords cfg cy (List.replicate (n + 1) ([] : List Char))
            (emitBlank cfg cy st) := by
      rw [hrep, hrep2]
      show processWords cfg cy ([] :: List.replicate n ([] : List Char))
          (processWord cfg cy false [] st)
          = processWords cfg cy ([] :: List.replicate n ([] : List Char))
            (emitBlank cfg cy st)
      rw [processWord_nil]
    obtain ⟨ih1, ih2, ih3⟩ := ih (emitBlank cfg cy st)
    refine ⟨?_, ?_, ?_⟩
    · rw [hpw, ih1]
      simp [emitBlank]
      omega
    · rw [hpw, ih2, patternsOf_emitBlank]
      simp [List.replicate_succ]
    · rw [hpw, ih3]
      rfl

/-- A line containing only word separators counts one blank cell per word
slot (`length + 1` of them) and generates no dot. -/
theorem processLine_all_spaces (cfg : LayoutConfig) (cy : ℚ) (line : List Char)
    (h : ∀ c ∈ line, c = ' ') :
    (processLine cfg cy line).emitted.length = line.length + 1
  ∧ patternsOf (processLine cfg cy line)
      = List.replicate (line.length + 1) blankPattern
  ∧ (processLine cfg cy line).dots = [] := by
  have hs := splitOnChar_all_sep ' ' line h
  obtain ⟨h1, h2, h3⟩ := processWords_replicate_empty cfg cy line.length ⟨0, [], []⟩
  rw [processLine, hs]
  exact ⟨by simpa using h1, by simpa [patternsOf] using h2, h3⟩

/-- The produced `num_lines` is the number of newline-split lines of the
input, empty and separator-only lines included. -/
theorem result_num_lines (text : List Char) (cfg : LayoutConfig)
    (r : LayoutResult) (h : generate_braille_text text cfg = some r) :
    r.num_lines = (splitOnChar '\n' text).length := by
  simp only [generate_braille_text] at h
  split at h
  · exact absurd h (by simp)
  · obtain rfl : _ = r := Option.some.inj h
    rfl

/-- C2 amended: a line containing only word separators still counts toward
`num_lines`, but contributes `length + 1` blank cells - one per empty word -
to the maximum-cell-count computation, not zero. -/
theorem separator_line_amended (cfg : LayoutConfig) (cy : ℚ) (line : List Char)
    (hline : ∀ c ∈ line, c = ' ') (text : List Char) (r : LayoutResult)
    (hr : generate_braille_text text cfg = some r) :
    (processLine cfg cy line).emitted.length = line.length + 1
  ∧ patternsOf (processLine cfg cy line)
      = List.replicate (line.length + 1) blankPattern
  ∧ (processLine cfg cy line).dots = []
  ∧ r.num_lines = (splitOnChar '\n' text).length :=
  ⟨(processLine_all_spaces cfg cy line hline).1,
   (processLine_all_spaces cfg cy line hline).2.1,
   (processLine_all_spaces cfg cy line hline).2.2,
   result_num_lines text cfg r hr⟩

/-- Witness for the amended C2 at a three-space line inside `"a\n   "`. -/
theorem separator_line_amended_witness :
    (processLine defaultConfig 0 threeSpaces).emitted.length = threeSpaces.length + 1
  ∧ ((generate_braille_text textSepLine defaultConfig).getD emptyResult).num_lines
      = (splitOnChar '\n' textSepLine).length :=
  ⟨(separator_line_amended defaultConfig 0 threeSpaces (by decide) textSepLine
      ((generate_braille_text textSepLine defaultConfig).getD emptyResult) rfl).1,
   (separator_line_amended defaultConfig 0 threeSpaces (by decide) textSepLine
      ((generate_braille_text textSepLine defaultConfig).getD emptyResult) rfl).2.2.2⟩


end Braille
